import Mathlib

/-!
# Verification of the hash-router / i18n dashboard core

Shallow embedding of the routing and internationalisation core of the
dashboard frontend:

* `src/vite_frontend/src/router.js` — route model (`normalizePath`,
  `parseParams`, `toSegments`, `buildRouteFrom`), whitelist validation
  (`isAllowedRoute`), and the navigation state machine (`initRouter`,
  `navigate`, `getRoute`, listener fan-out).
* `src/vite_frontend/src/i18n/translations.js` — dictionaries, dotted-path
  lookup (`pathGet`), interpolation, `t`, `setLanguage`, `initI18n`,
  listener fan-out.
* `src/vite_frontend/src/main.js` / `src/unnamed/part_003` — the view
  composer's `renderRoute` prefix table.

Strings are embedded as Lean `String` / `List Char`.  JavaScript exceptions
are embedded as `Option`/`Except` results (`none` / `.error` = the call
throws).  The browser's `location.hash` is modelled as a plain string
register; percent-encoding that real browsers apply to exotic characters
when a fragment is assigned is not modelled.
-/

namespace Dashboard

/-! ## Character-level helpers -/

/-- The whitespace characters removed by JavaScript's `String.prototype.trim`
(WhiteSpace and LineTerminator code points). -/
def isJsWs (c : Char) : Bool :=
  c = ' ' || c = '\t' || c = '\n' || c = '\r' ||
  c.toNat = 0xb || c.toNat = 0xc || c.toNat = 0xa0 || c.toNat = 0xfeff ||
  c.toNat = 0x1680 || c.toNat = 0x202f || c.toNat = 0x205f ||
  c.toNat = 0x3000 || c.toNat = 0x2028 || c.toNat = 0x2029 ||
  (0x2000 ≤ c.toNat && c.toNat ≤ 0x200a)

/-- `raw.trim()`: drop leading and trailing JS whitespace. -/
def jsTrim (l : List Char) : List Char :=
  ((l.dropWhile isJsWs).reverse.dropWhile isJsWs).reverse

/-- `if (s.startsWith('#')) s = s.slice(1)` -/
def stripHash : List Char → List Char
  | '#' :: r => r
  | l => l

/-- `if (s.startsWith('!')) s = s.slice(1)` -/
def stripBang : List Char → List Char
  | '!' :: r => r
  | l => l

/-- `if (!s.startsWith('/')) s = '/' + s` -/
def ensureSlash (l : List Char) : List Char :=
  match l with
  | '/' :: _ => l
  | _ => '/' :: l

/-- `s.replace(/\/{2,}/g, '/')`: collapse every run of two or more
slashes into a single slash. -/
def collapseSlashes : List Char → List Char
  | [] => []
  | [c] => [c]
  | c :: d :: rest =>
    if c = '/' ∧ d = '/' then collapseSlashes (d :: rest)
    else c :: collapseSlashes (d :: rest)

/-- `const [onlyPath] = s.split('?')`: keep everything before the first `?`. -/
def dropQuery (l : List Char) : List Char :=
  l.takeWhile (fun c => c ≠ '?')

/-- `onlyPath.length > 1 && onlyPath.endsWith('/') ? onlyPath.slice(0, -1) : onlyPath` -/
def dropTrailingSlash (l : List Char) : List Char :=
  if 1 < l.length ∧ l.getLast? = some '/' then l.dropLast else l

/-- `normalizePath` from `router.js` (lines 66–89), on the character list of
the raw string.  The `typeof raw !== 'string'` guard is outside the model:
every embedded call site passes a string. -/
def normalizeList (raw : List Char) : List Char :=
  let cleaned :=
    dropTrailingSlash (dropQuery (collapseSlashes (ensureSlash (stripBang (stripHash (jsTrim raw))))))
  if cleaned = [] then ['/'] else cleaned

/-- `normalizePath` from `router.js` (lines 66–89). -/
def normalizePath (raw : String) : String :=
  String.mk (normalizeList raw.data)

/-- `s.split(sep)` for a single-character separator: splitting `""` yields
`[""]`, and adjacent separators yield empty pieces, as in JavaScript. -/
def splitOnChar (sep : Char) : List Char → List (List Char)
  | [] => [[]]
  | c :: rest =>
    if c = sep then [] :: splitOnChar sep rest
    else
      match splitOnChar sep rest with
      | [] => [[c]]
      | h :: t => (c :: h) :: t

/-- `s.startsWith(p)` (first argument the string, second the candidate
leading piece). -/
def startsWithL : List Char → List Char → Bool
  | _, [] => true
  | [], _ :: _ => false
  | c :: cs, p :: ps => c = p && startsWithL cs ps

/-! ## `decodeURIComponent`

The ECMAScript `Decode` abstract operation: `%XY` escape sequences are read
as bytes and must form strict UTF-8 (a `%` not followed by two hex digits,
a lone continuation byte, a missing or malformed continuation escape, an
overlong encoding, a surrogate, or a code point above U+10FFFF all throw
`URIError`).  A `none` result embeds the thrown `URIError`.  Code points
above U+FFFF are represented as one scalar-value `Char` rather than a
UTF-16 surrogate pair. -/

/-- Value of a hexadecimal digit character, if it is one. -/
def hexDigitVal (c : Char) : Option Nat :=
  let n := c.toNat
  if 0x30 ≤ n ∧ n ≤ 0x39 then some (n - 0x30)
  else if 0x41 ≤ n ∧ n ≤ 0x46 then some (n - 0x41 + 10)
  else if 0x61 ≤ n ∧ n ≤ 0x66 then some (n - 0x61 + 10)
  else none

/-- First pass of `decodeURIComponent`: each `%XY` becomes the byte `XY`
(`Sum.inr`), every other character stays itself (`Sum.inl`); a `%` not
followed by two hex digits throws. -/
def pctTokenize : List Char → Option (List (Char ⊕ Nat))
  | [] => some []
  | '%' :: h :: lo :: rest =>
    match hexDigitVal h, hexDigitVal lo with
    | some a, some b => (pctTokenize rest).map (fun t => Sum.inr (16 * a + b) :: t)
    | _, _ => none
  | '%' :: _ => none
  | c :: rest => (pctTokenize rest).map (fun t => Sum.inl c :: t)

/-- UTF-8 continuation byte. -/
def isContByte (b : Nat) : Bool := 0x80 ≤ b && b ≤ 0xbf

/-- Second pass of `decodeURIComponent`: escape-derived bytes must form
strict UTF-8; literal characters pass through.  A continuation position
occupied by a literal character (in JavaScript, a character other than `%`
where a continuation escape is required) throws. -/
def utf8Assemble : List (Char ⊕ Nat) → Option (List Char)
  | [] => some []
  | Sum.inl c :: rest => (utf8Assemble rest).map (fun t => c :: t)
  | Sum.inr b :: rest =>
    if b < 0x80 then
      (utf8Assemble rest).map (fun t => Char.ofNat b :: t)
    else if 0xc2 ≤ b ∧ b ≤ 0xdf then
      match rest with
      | Sum.inr b2 :: rest2 =>
        if isContByte b2 then
          (utf8Assemble rest2).map (fun t => Char.ofNat ((b - 0xc0) * 0x40 + (b2 - 0x80)) :: t)
        else none
      | _ => none
    else if 0xe0 ≤ b ∧ b ≤ 0xef then
      match rest with
      | Sum.inr b2 :: Sum.inr b3 :: rest2 =>
        if (if b = 0xe0 then 0xa0 ≤ b2 && b2 ≤ 0xbf
            else if b = 0xed then 0x80 ≤ b2 && b2 ≤ 0x9f
            else isContByte b2) && isContByte b3 then
          (utf8Assemble rest2).map
            (fun t => Char.ofNat ((b - 0xe0) * 0x1000 + (b2 - 0x80) * 0x40 + (b3 - 0x80)) :: t)
        else none
      | _ => none
    else if 0xf0 ≤ b ∧ b ≤ 0xf4 then
      match rest with
      | Sum.inr b2 :: Sum.inr b3 :: Sum.inr b4 :: rest2 =>
        if (if b = 0xf0 then 0x90 ≤ b2 && b2 ≤ 0xbf
            else if b = 0xf4 then 0x80 ≤ b2 && b2 ≤ 0x8f
            else isContByte b2) && isContByte b3 && isContByte b4 then
          (utf8Assemble rest2).map
            (fun t => Char.ofNat
              ((b - 0xf0) * 0x40000 + (b2 - 0x80) * 0x1000 + (b3 - 0x80) * 0x40 + (b4 - 0x80)) :: t)
        else none
      | _ => none
    else none

/-- `decodeURIComponent(s)`; `none` embeds a thrown `URIError`. -/
def decodeUriComponent (l : List Char) : Option (List Char) :=
  (pctTokenize l).bind utf8Assemble

/-! ## `parseParams`, `toSegments`, `buildRouteFrom` -/

/-- JavaScript object assignment `out[key] = value` on a string-keyed
object: insertion-ordered, re-assignment overwrites in place. -/
def objSet (m : List (String × String)) (k v : String) : List (String × String) :=
  if m.any (fun p => p.1 = k) then
    m.map (fun p => if p.1 = k then (k, v) else p)
  else m ++ [(k, v)]

/-- One iteration of the `parseParams` loop over `query.split('&')`
(`router.js` lines 104–115): empty parts are skipped; a part without `=`
is a bare percent-decoded key mapped to `""`; otherwise key and value are
the percent-decoded pieces around the first `=`; empty keys are dropped.
`none` embeds a thrown `URIError`. -/
def parsePart (m : List (String × String)) (part : List Char) :
    Option (List (String × String)) :=
  if part = [] then some m
  else
    let pre := part.takeWhile (fun c => c ≠ '=')
    match part.dropWhile (fun c => c ≠ '=') with
    | [] =>
      (decodeUriComponent part).map (fun k =>
        if k = [] then m else objSet m (String.mk k) "")
    | _ :: after =>
      (decodeUriComponent pre).bind (fun k =>
        (decodeUriComponent after).map (fun v =>
          if k = [] then m else objSet m (String.mk k) (String.mk v)))

/-- `parseParams` from `router.js` (lines 94–117).  `none` embeds a thrown
`URIError`; the `typeof raw !== 'string'` guard is outside the model. -/
def parseParams (raw : String) : Option (List (String × String)) :=
  if raw.data = [] then some []
  else if '?' ∈ raw.data then
    match (raw.data.dropWhile (fun c => c ≠ '?')).tail with
    | [] => some []
    | query => (splitOnChar '&' query).foldlM parsePart []
  else some []

/-- `toSegments` from `router.js` (lines 122–125). -/
def toSegments (path : String) : List String :=
  if path = "" ∨ path = "/" then []
  else ((splitOnChar '/' path.data).filter (fun s => s ≠ [])).map String.mk

/-- The route value `{ path, segments, params }`. -/
structure Route where
  path : String
  segments : List String
  params : List (String × String)
deriving DecidableEq, Repr

/-- `buildRouteFrom` from `router.js` (lines 130–141), applied to the
effective raw string (`rawHash || win.location.hash`); `none` embeds the
`URIError` that `parseParams` can throw. -/
def buildRouteFrom (raw : String) : Option Route :=
  let normalizedPath := normalizePath raw
  match parseParams raw with
  | none => none
  | some ps => some { path := normalizedPath, segments := toSegments normalizedPath, params := ps }

/-! ## Whitelist and the navigation state machine -/

/-- `ROUTE_WHITELIST` from `router.js` (lines 30–37). -/
def ROUTE_WHITELIST : List String :=
  ["/home", "/status", "/basic", "/advanced", "/management", "/application"]

/-- `isAllowedRoute` from `router.js` (lines 147–155). -/
def isAllowedRoute (path : String) : Bool :=
  if path = "/" ∨ path = "" then false
  else ROUTE_WHITELIST.any (fun base =>
    path = base || startsWithL path.data (base ++ "/").data)

/-- The router's module-level state (`router.js` lines 39–46) together with
the browser's fragment register.  `hash` holds `win.location.hash`
verbatim (including the leading `#` once one has been assigned);
`pendingResolve` is true when a debounce timer is armed; listeners are
identified by numbers, `listeners` being insertion-ordered with
set semantics. -/
structure RouterState where
  hash : String
  defaultRoute : String
  currentRoute : Option Route
  isInitialized : Bool
  pendingResolve : Bool
  listeners : List Nat
deriving DecidableEq, Repr

/-- The state at module load, before any operation: `_defaultRoute = '/home'`,
`_currentRoute = null`, no listeners; the page's initial fragment is
arbitrary. -/
def mkInitial (hash : String) : RouterState :=
  { hash := hash, defaultRoute := "/home", currentRoute := none,
    isInitialized := false, pendingResolve := false, listeners := [] }

/-- `onRouteChange` (`router.js` lines 270–274): `Set.add`. -/
def addListener (ls : List Nat) (n : Nat) : List Nat :=
  if n ∈ ls then ls else ls ++ [n]

/-- `navigate` (`router.js` lines 241–260) with default options
(`replace` only affects history stacking, which is not modelled; `silent`
is never set by this codebase): write `'#' + normalizePath(path)` to the
fragment register and arm the debounce timer
(`debouncedHandleRouteChange`). -/
def navigateStep (s : RouterState) (path : String) : RouterState :=
  { s with hash := "#" ++ normalizePath path, pendingResolve := true }

/-- The debounce timer firing: `handleRouteChange` (`router.js`
lines 174–185).  Returns the new state and the list of routes emitted to
listeners.  When `buildRouteFrom` throws (malformed percent-encoding in
the fragment), the exception propagates out of the timer callback: no
state field other than the now-cleared timer changes and nothing is
emitted. -/
def resolveStep (s : RouterState) : RouterState × List Route :=
  let s' := { s with pendingResolve := false }
  match buildRouteFrom s.hash with
  | none => (s', [])
  | some route =>
    if isAllowedRoute route.path then
      ({ s' with currentRoute := some route }, [route])
    else
      (navigateStep s' s.defaultRoute, [])

/-- The operations a client (or the browser) can perform on the router. -/
inductive ROp where
  /-- `initRouter({ defaultRoute?, onRouteChange? })` (lines 201–238);
  the optional listener is identified by a number. -/
  | init (defaultRoute : Option String) (listener : Option Nat)
  /-- `navigate(path)` (lines 241–260). -/
  | nav (path : String)
  /-- An external fragment change (address bar / link): the register
  changes and, when the router is initialized, the `hashchange` handler
  arms the debounce timer. -/
  | hashChange (hash : String)
  /-- The armed debounce timer fires (`handleRouteChange`); a no-op when no
  timer is armed. -/
  | resolve
  /-- `onRouteChange(cb)` (lines 270–274). -/
  | sub (n : Nat)
  /-- `offRouteChange(cb)` (lines 277–281). -/
  | unsub (n : Nat)

/-- The `defaultRoute` update of `initRouter`: only a non-empty string
option replaces the stored default, normalized first (`router.js`
lines 205–207 and 224–226). -/
def applyDefaultRoute (s : RouterState) (d : Option String) : RouterState :=
  match d with
  | some ds => if ds ≠ "" then { s with defaultRoute := normalizePath ds } else s
  | none => s

/-- The immediate replay `initRouter` performs for a listener registered
after initialization: the current route when there is one (`router.js`
lines 210–217). -/
def replayList (s : RouterState) : List Route :=
  match s.currentRoute with
  | some r => [r]
  | none => []

/-- One router operation: the new state and the routes emitted to
listeners during it. -/
def routerApply (s : RouterState) (op : ROp) : RouterState × List Route :=
  match op with
  | .init d l =>
    if s.isInitialized then
      let s1 := applyDefaultRoute s d
      match l with
      | some n => ({ s1 with listeners := addListener s1.listeners n }, replayList s1)
      | none => (s1, [])
    else
      let s1 := { s with isInitialized := true }
      let s2 := applyDefaultRoute s1 d
      let s3 := match l with
        | some n => { s2 with listeners := addListener s2.listeners n }
        | none => s2
      ({ s3 with pendingResolve := true }, [])
  | .nav p => (navigateStep s p, [])
  | .hashChange h =>
    ({ s with hash := h,
              pendingResolve := if s.isInitialized then true else s.pendingResolve }, [])
  | .resolve => if s.pendingResolve then resolveStep s else (s, [])
  | .sub n => ({ s with listeners := addListener s.listeners n }, [])
  | .unsub n => ({ s with listeners := s.listeners.erase n }, [])

/-- `getRoute` (`router.js` lines 263–267); `none` embeds the `URIError`
that `buildRouteFrom` can throw when no route has been resolved yet and
the fragment holds a malformed percent-encoding. -/
def getRoute (s : RouterState) : Option Route :=
  match s.currentRoute with
  | some r => some r
  | none => buildRouteFrom s.hash

/-- The router states reachable by any operation sequence from module
load. -/
inductive ReachableR : RouterState → Prop where
  | base (hash : String) : ReachableR (mkInitial hash)
  | step {s : RouterState} (op : ROp) : ReachableR s → ReachableR (routerApply s op).1

/-! ## The view composer's prefix table -/

/-- The page renderers `renderRoute` can select (`main.js` lines 136–187,
`src/unnamed/part_003` lines 97–142). -/
inductive Page where
  | home
  | status
  | basicSettings
  | advancedSettings
  | management
  | application (sub : String)
  | notFound
deriving DecidableEq, Repr

/-- The route-to-renderer resolution of `renderRoute` (`main.js`
lines 136–187): the ordered `if` chain over `path = route.path || '/home'`.
For `/application` routes, `path.split('/')[2] || 'preferences'` is the
`sub` argument; both an absent index 2 (`undefined`) and an empty string
select `'preferences'`. -/
def resolvePage (route : Route) : Page :=
  let path := if route.path = "" then "/home" else route.path
  if path = "/home" then .home
  else if path = "/status" || startsWithL path.data "/status/".data then .status
  else if path = "/basic" || startsWithL path.data "/basic/".data then .basicSettings
  else if path = "/advanced" || startsWithL path.data "/advanced/".data then .advancedSettings
  else if path = "/management" || startsWithL path.data "/management/".data then .management
  else if path = "/application" || startsWithL path.data "/application/".data then
    let sub := String.mk (((splitOnChar '/' path.data).getD 2 []))
    .application (if sub = "" then "preferences" else sub)
  else .notFound

/-! ## Translation registry (`src/vite_frontend/src/i18n/translations.js`)

Dictionary values are nested string trees, but the JavaScript values the
module can actually hold and traverse are richer:

* `Object.prototype.hasOwnProperty.call(cur, p)` boxes a primitive string,
  whose own properties are `length` (a number) and the canonical numeric
  indices (one-character strings), so `pathGet` walks *into* string
  leaves: `pathGet(en, 'app.title.length')` is `14`.
* A boxed number has no own string-keyed properties, so a path cannot
  continue past a number.
* A bracket lookup such as `dictionaries[lang]` (unlike the
  `hasOwnProperty`-guarded walk of `pathGet`) consults the prototype
  chain, so inherited `Object.prototype` member names (`toString`,
  `constructor`, `__proto__`, …) yield truthy built-in values.  These
  built-ins are modelled opaquely (`TransVal.builtin`): their own
  properties (a function's `length`/`name`, `Object`'s static methods,
  the members of `Object.prototype` itself) are beyond the model
  boundary, and no theorem below resolves a path through them. -/

/-- A JavaScript value reachable from the translation registry: a string
leaf, a nested object literal, a number (a boxed string's `length`), or
an opaque built-in inherited from `Object.prototype`. -/
inductive TransVal where
  | str (s : String)
  | obj (entries : List (String × TransVal))
  | num (n : Nat)
  | builtin (desc : String)

/-- Whether a translation value is a string. -/
def TransVal.isStr : TransVal → Bool
  | .str _ => true
  | _ => false

/-- `Object.prototype.hasOwnProperty.call(cur, p)` followed by `cur[p]` on
an object literal: first (only) binding of the key. -/
def getEntry : List (String × TransVal) → String → Option TransVal
  | [], _ => none
  | (k, v) :: rest, key => if k = key then some v else getEntry rest key

/-- `path.split('.')` as strings. -/
def splitDots (s : String) : List String :=
  (splitOnChar '.' s.data).map String.mk

/-- The property key `p` is a canonical array index (the exact decimal
spelling of a natural number, no leading zero): the only numeric own
properties a boxed string has. -/
def canonicalIndex (p : List Char) : Option Nat :=
  match p with
  | [] => none
  | c :: rest =>
    if c = '0' then (if rest = [] then some 0 else none)
    else if (c :: rest).all (fun d => 0x30 ≤ d.toNat && d.toNat ≤ 0x39) then
      some ((c :: rest).foldl (fun acc d => acc * 10 + (d.toNat - 0x30)) 0)
    else none

/-- The walk inside `pathGet` (`translations.js` lines 195–201).  On a
string, `hasOwnProperty` boxes the primitive: its own properties are
`length` and the in-range canonical indices (the dictionary strings are
all BMP text, so UTF-16 length and indexing coincide with the scalar
values modelled here).  A number has no own string-keyed properties; an
opaque built-in is the model boundary. -/
def pathGetParts : TransVal → List String → Option TransVal
  | cur, [] => some cur
  | .obj entries, p :: rest =>
    match getEntry entries p with
    | some nxt => pathGetParts nxt rest
    | none => none
  | .str s, p :: rest =>
    if p = "length" then pathGetParts (.num s.data.length) rest
    else
      match canonicalIndex p.data with
      | some i =>
        if i < s.data.length then
          pathGetParts (.str (String.mk [s.data.getD i ' '])) rest
        else none
      | none => none
  | .num _, _ :: _ => none
  | .builtin _, _ :: _ => none

/-- `pathGet` from `translations.js` (lines 191–203); `none` is
`undefined`.  The `!obj` and `typeof path` guards are outside the model:
every embedded call site passes an object and a string. -/
def pathGet (obj : TransVal) (path : String) : Option TransVal :=
  pathGetParts obj (splitDots path)

/-- `\w` of the interpolation regex. -/
def isWordChar (c : Char) : Bool := c.isAlphanum || c = '_'

set_option linter.unusedVariables false in
/-- `str.replace(/\{(\w+)\}/g, ...)` (`translations.js` lines 211–216):
each `{name}` whose `name` is a non-empty word-character run is replaced
by `vars[name]` when `vars` has that own property, and kept verbatim
otherwise. -/
def interpList (l : List Char) (vars : List (String × String)) : List Char :=
  match l with
  | [] => []
  | '{' :: rest =>
    match h : rest.dropWhile isWordChar with
    | '}' :: rest3 =>
      if rest.takeWhile isWordChar = [] then '{' :: interpList rest vars
      else
        let key := String.mk (rest.takeWhile isWordChar)
        (match vars.find? (fun p => p.1 = key) with
         | some p => p.2.data
         | none => '{' :: (rest.takeWhile isWordChar ++ ['}'])) ++ interpList rest3 vars
    | _ => '{' :: interpList rest vars
  | c :: rest => c :: interpList rest vars
termination_by l.length
decreasing_by
  · simp
  · simp only [List.length_cons]
    have h1 : rest3.length < (rest.dropWhile isWordChar).length := by
      rw [h]; simp
    have h2 : ∀ m : List Char, (m.dropWhile isWordChar).length ≤ m.length := by
      intro m
      induction m with
      | nil => simp
      | cons a t ih =>
        by_cases ha : isWordChar a <;> (simp [List.dropWhile, ha]; try omega)
    have h3 := h2 rest
    omega
  · simp
  · simp

/-- `interpolate` from `translations.js` (lines 209–217); `vars = none`
is an absent / non-object `vars`. -/
def interpolate (s : String) (vars : Option (List (String × String))) : String :=
  match vars with
  | none => s
  | some vs => String.mk (interpList s.data vs)

/-- The `en` dictionary (`translations.js` lines 27–99). -/
def en : TransVal := .obj [
  ("app", .obj [("title", .str "User Dashboard")]),
  ("header", .obj [
    ("language", .str "Language"),
    ("account", .str "Account"),
    ("logout", .str "Logout")]),
  ("navigation", .obj [
    ("home", .str "Home"),
    ("status", .str "Status"),
    ("basicSettings", .str "Basic Settings"),
    ("advancedSettings", .str "Advanced Settings"),
    ("management", .str "Management"),
    ("application", .str "Application"),
    ("statusLan", .str "LAN"),
    ("statusWan", .str "WAN"),
    ("statusWlan", .str "WLAN"),
    ("statusDhcp", .str "DHCP"),
    ("statusLog", .str "Log"),
    ("basicLan", .str "LAN"),
    ("basicWan", .str "WAN"),
    ("basicWlan", .str "WLAN"),
    ("basicDhcp", .str "DHCP"),
    ("advancedServiceControl", .str "Service Control"),
    ("advancedDdns", .str "DDNS"),
    ("advancedDmz", .str "DMZ"),
    ("managementNtp", .str "NTP"),
    ("managementSsh", .str "SSH"),
    ("managementFirmware", .str "Firmware Upgrade"),
    ("applicationUpnp", .str "UPnP")]),
  ("sections", .obj [
    ("home", .str "Home"),
    ("status", .str "Status"),
    ("basicSettings", .str "Basic Settings"),
    ("advancedSettings", .str "Advanced Settings"),
    ("management", .str "Management"),
    ("application", .str "Application")]),
  ("pages", .obj [
    ("home", .obj [
      ("title", .str "Welcome to the Dashboard"),
      ("subtitle", .str "Select an item from the menu to get started.")]),
    ("status", .obj [
      ("title", .str "System Status"),
      ("subtitle", .str "View system health and live metrics.")]),
    ("basicSettings", .obj [
      ("title", .str "Basic Settings"),
      ("subtitle", .str "Configure common settings.")]),
    ("advancedSettings", .obj [
      ("title", .str "Advanced Settings"),
      ("subtitle", .str "Tweak advanced parameters.")]),
    ("management", .obj [
      ("title", .str "Management"),
      ("subtitle", .str "Manage users, roles, and permissions.")]),
    ("application", .obj [
      ("title", .str "Application"),
      ("subtitle", .str "Application-level configuration and tools.")]),
    ("notFound", .obj [
      ("title", .str "Page Not Found"),
      ("subtitle", .str "The page you are looking for does not exist.")])])]

/-- The `es` dictionary (`translations.js` lines 101–173). -/
def es : TransVal := .obj [
  ("app", .obj [("title", .str "Panel de Usuario")]),
  ("header", .obj [
    ("language", .str "Idioma"),
    ("account", .str "Cuenta"),
    ("logout", .str "Cerrar sesión")]),
  ("navigation", .obj [
    ("home", .str "Inicio"),
    ("status", .str "Estado"),
    ("basicSettings", .str "Configuración Básica"),
    ("advancedSettings", .str "Configuración Avanzada"),
    ("management", .str "Administración"),
    ("application", .str "Aplicación"),
    ("statusLan", .str "LAN"),
    ("statusWan", .str "WAN"),
    ("statusWlan", .str "WLAN"),
    ("statusDhcp", .str "DHCP"),
    ("statusLog", .str "Registro"),
    ("basicLan", .str "LAN"),
    ("basicWan", .str "WAN"),
    ("basicWlan", .str "WLAN"),
    ("basicDhcp", .str "DHCP"),
    ("advancedServiceControl", .str "Control de Servicio"),
    ("advancedDdns", .str "DDNS"),
    ("advancedDmz", .str "DMZ"),
    ("managementNtp", .str "NTP"),
    ("managementSsh", .str "SSH"),
    ("managementFirmware", .str "Actualización de Firmware"),
    ("applicationUpnp", .str "UPnP")]),
  ("sections", .obj [
    ("home", .str "Inicio"),
    ("status", .str "Estado"),
    ("basicSettings", .str "Configuración Básica"),
    ("advancedSettings", .str "Configuración Avanzada"),
    ("management", .str "Administración"),
    ("application", .str "Aplicación")]),
  ("pages", .obj [
    ("home", .obj [
      ("title", .str "Bienvenido al Panel"),
      ("subtitle", .str "Selecciona un elemento del menú para comenzar.")]),
    ("status", .obj [
      ("title", .str "Estado del Sistema"),
      ("subtitle", .str "Ver salud del sistema y métricas en vivo.")]),
    ("basicSettings", .obj [
      ("title", .str "Configuración Básica"),
      ("subtitle", .str "Configura los ajustes comunes.")]),
    ("advancedSettings", .obj [
      ("title", .str "Configuración Avanzada"),
      ("subtitle", .str "Ajusta parámetros avanzados.")]),
    ("management", .obj [
      ("title", .str "Administración"),
      ("subtitle", .str "Gestiona usuarios, roles y permisos.")]),
    ("application", .obj [
      ("title", .str "Aplicación"),
      ("subtitle", .str "Configuración y herramientas a nivel de aplicación.")]),
    ("notFound", .obj [
      ("title", .str "Página No Encontrada"),
      ("subtitle", .str "La página que buscas no existe.")])])]

/-- The language registry `dictionaries` (`translations.js` lines 176–179). -/
def dictionaries : List (String × TransVal) := [("en", en), ("es", es)]

/-- The own properties every plain object literal inherits from
`Object.prototype` (their exact set in ECMAScript): a bracket lookup like
`dictionaries[lang]` finds these truthy values even though they are not
dictionary entries.  Reading `__proto__` invokes the inherited accessor
and yields `Object.prototype` itself (a truthy object); the others are
built-in functions.  All are modelled opaquely. -/
def OBJECT_PROTO_MEMBERS : List (String × TransVal) := [
  ("constructor", .builtin "Object"),
  ("hasOwnProperty", .builtin "Function"),
  ("isPrototypeOf", .builtin "Function"),
  ("propertyIsEnumerable", .builtin "Function"),
  ("toLocaleString", .builtin "Function"),
  ("toString", .builtin "Function"),
  ("valueOf", .builtin "Function"),
  ("__defineGetter__", .builtin "Function"),
  ("__defineSetter__", .builtin "Function"),
  ("__lookupGetter__", .builtin "Function"),
  ("__lookupSetter__", .builtin "Function"),
  ("__proto__", .builtin "Object.prototype")]

/-- The value an object-literal bracket lookup finds on the prototype
chain for a non-own key, if any. -/
def protoMember (name : String) : Option TransVal :=
  getEntry OBJECT_PROTO_MEMBERS name

/-- `!!dictionaries[lang]`: truthy for the own keys (`en`, `es`) and for
every name inherited from `Object.prototype`; `undefined` (falsy)
otherwise. -/
def dictHas (lang : String) : Bool :=
  (getEntry dictionaries lang).isSome || (protoMember lang).isSome

/-- The registry's default-language dictionary, `dictionaries.en`.  For a
registry without an `"en"` entry this is the empty object: `pathGet` on
`undefined` and on `{}` both yield `undefined` (`"en"` is not an
inherited name, so the prototype chain contributes nothing here). -/
def defaultDict (dicts : List (String × TransVal)) : TransVal :=
  (getEntry dicts "en").getD (.obj [])

/-- `dictionaries[_currentLang] || dictionaries.en`: an own entry when the
key is an own key; an inherited (truthy) `Object.prototype` member
otherwise when the key names one — only then does `||` fall back to the
`"en"` dictionary. -/
def activeDict (dicts : List (String × TransVal)) (lang : String) : TransVal :=
  match getEntry dicts lang with
  | some d => d
  | none =>
    match protoMember lang with
    | some v => v
    | none => defaultDict dicts

/-- `t` from `translations.js` (lines 299–312), generalised over the
dictionary registry (the module-level `dictionaries` constant becomes the
`dicts` argument; `dictionaries.en` becomes the registry's `"en"` entry). -/
def tWith (dicts : List (String × TransVal)) (lang key : String)
    (vars : Option (List (String × String))) : TransVal :=
  let dict := activeDict dicts lang
  let val := match pathGet dict key with
    | some v => v
    | none =>
      match pathGet (defaultDict dicts) key with
      | some fb => fb
      | none => .str key
  match val with
  | .str s => .str (interpolate s vars)
  | v => v

/-- `t(key, vars)` with the module's `dictionaries` and the current
language. -/
def t (lang key : String) (vars : Option (List (String × String))) : TransVal :=
  tWith dictionaries lang key vars

/-- The i18n module's mutable state: `_currentLang` and the value the
module last persisted under `app:lang` (none before any write). -/
structure I18nState where
  currentLang : String
  storedLang : Option String
deriving DecidableEq, Repr

/-- State at module load: `_currentLang = 'en'`, nothing persisted yet. -/
def i18nInitial : I18nState := { currentLang := "en", storedLang := none }

/-- `setLanguage` (`translations.js` lines 318–328): the new state and the
language-change notification it fires, if any. -/
def setLanguageStep (s : I18nState) (lang : String) : I18nState × Option String :=
  if dictHas lang then
    ({ currentLang := lang, storedLang := some lang }, some lang)
  else (s, none)

/-- The browser-locale detection block of `initI18n` (`translations.js`
lines 273–286): the two-letter lower-cased locale when it names a
registered dictionary, otherwise the current language is kept. -/
def initDetected (s : I18nState) (navLang : Option String) : String :=
  match navLang with
  | some nl =>
    let short := String.mk ((nl.data.take 2).map Char.toLower)
    if dictHas short then short else s.currentLang
  | none => s.currentLang

/-- `initI18n` (`translations.js` lines 263–290): `saved` is what
`storage.getItem('app:lang')` returned (`none` = `null`), `navLang` the
platform locale (`navigator.language` / `languages[0]`, `none` when
unavailable).  When the persisted code is a registered language it becomes
current (nothing written); otherwise the detected (or kept) language is
persisted.  Returns the new state and the notification fired (always
fired by `initI18n`). -/
def initI18nStep (s : I18nState) (saved navLang : Option String) :
    I18nState × Option String :=
  match saved with
  | some sv =>
    if sv ≠ "" && dictHas sv then
      ({ currentLang := sv, storedLang := s.storedLang }, some sv)
    else
      ({ currentLang := initDetected s navLang,
         storedLang := some (initDetected s navLang) }, some (initDetected s navLang))
  | none =>
    ({ currentLang := initDetected s navLang,
       storedLang := some (initDetected s navLang) }, some (initDetected s navLang))

/-- The i18n operations: initialization (with its two external inputs) and
`setLanguage`. -/
inductive LOp where
  | init (saved navLang : Option String)
  | setLang (lang : String)

/-- One i18n operation: new state and fired notification. -/
def i18nApply (s : I18nState) (op : LOp) : I18nState × Option String :=
  match op with
  | .init saved navLang => initI18nStep s saved navLang
  | .setLang lang => setLanguageStep s lang

/-- The i18n states reachable from module load. -/
inductive ReachableL : I18nState → Prop where
  | base : ReachableL i18nInitial
  | step {s : I18nState} (op : LOp) : ReachableL s → ReachableL (i18nApply s op).1

/-! ## Listener fan-out

`emit` (`router.js` lines 160–169) and `emitLanguageChange`
(`translations.js` lines 248–256) run the same loop:
`for (cb of listeners) { try { cb(x) } catch { } }`.  A listener is a
number paired with the outcome of calling it on the emitted value
(`.error` = it throws).  The result is the identifiers of the listeners
run during the pass, or `.error` if an exception escaped the loop to the
caller. -/
def listenerFanOut : List (Nat × Except String Unit) → Except String (List Nat)
  | [] => .ok []
  | (i, res) :: rest =>
    let caught : Except String Unit :=
      match res with
      | .ok u => .ok u
      | .error _ => .ok ()
    match caught with
    | .error e => .error e
    | .ok _ =>
      match listenerFanOut rest with
      | .ok is => .ok (i :: is)
      | .error e => .error e

/-! ## Spec-side predicates -/

/-- The string contains `"//"` as a substring (two adjacent slashes). -/
def containsDoubleSlash : List Char → Bool
  | c :: d :: rest => (c = '/' && d = '/') || containsDoubleSlash (d :: rest)
  | _ => false

/-- The stored-route invariant of the router state machine: `currentRoute`
is `null` or an allowed route. -/
def RouterInv (s : RouterState) : Prop :=
  s.currentRoute = none ∨
    ∃ r, s.currentRoute = some r ∧ isAllowedRoute r.path = true

/-! ## Concrete scenario states -/

/-- The application's router state after `initRouter({defaultRoute:'/home'})`
on an empty initial fragment, once the initial resolution (which redirects
the empty fragment to `/home`) has settled. -/
def appReadyState : RouterState :=
  (routerApply (routerApply (routerApply (mkInitial "")
    (.init (some "/home") none)).1 .resolve).1 .resolve).1

/-- `appReadyState` after `navigate("/basic/network?tab=wifi")` and the
resolution it schedules. -/
def afterNavBasicNetwork : RouterState :=
  (routerApply (routerApply appReadyState
    (.nav "/basic/network?tab=wifi")).1 .resolve).1

/-- A two-language registry whose `"xx"` dictionary misses a key that the
`"en"` dictionary has: exercises the key-level default-language fallback
of `t`, which the shipped `en`/`es` dictionaries (with identical key sets)
never reach. -/
def twoLangRegistry : List (String × TransVal) :=
  [("en", .obj [("k", .str "fallback")]), ("xx", .obj [])]

/-! ## Lemmas about `normalizePath` -/

theorem ensureSlash_head (l : List Char) : ∃ t, ensureSlash l = '/' :: t := by
  unfold ensureSlash
  split
  · next h => exact ⟨_, rfl⟩
  · exact ⟨l, rfl⟩

theorem collapseSlashes_cons (d : Char) (r : List Char) :
    ∃ t, collapseSlashes (d :: r) = d :: t := by
  induction r generalizing d with
  | nil => exact ⟨[], rfl⟩
  | cons e rest ih =>
    show ∃ t, (if d = '/' ∧ e = '/' then collapseSlashes (e :: rest)
               else d :: collapseSlashes (e :: rest)) = d :: t
    by_cases hde : d = '/' ∧ e = '/'
    · obtain ⟨t, ht⟩ := ih e
      refine ⟨t, ?_⟩
      rw [if_pos hde, ht, hde.2, hde.1]
    · exact ⟨collapseSlashes (e :: rest), by simp [hde]⟩

theorem containsDoubleSlash_collapseSlashes (l : List Char) :
    containsDoubleSlash (collapseSlashes l) = false := by
  induction l with
  | nil => rfl
  | cons c r ih =>
    cases r with
    | nil => rfl
    | cons d rest =>
      show containsDoubleSlash
        (if c = '/' ∧ d = '/' then collapseSlashes (d :: rest)
         else c :: collapseSlashes (d :: rest)) = false
      by_cases hcd : c = '/' ∧ d = '/'
      · simpa [hcd] using ih
      · obtain ⟨t, ht⟩ := collapseSlashes_cons d rest
        simp only [hcd, if_false, ht, containsDoubleSlash]
        rw [ht] at ih
        simp only [ih, Bool.or_false]
        simp only [decide_eq_true_eq] at *
        by_cases hc : c = '/' <;> by_cases hd : d = '/' <;> simp_all

theorem containsDoubleSlash_append_left (l r : List Char)
    (h : containsDoubleSlash (l ++ r) = false) :
    containsDoubleSlash l = false := by
  induction l with
  | nil => rfl
  | cons c cs ih =>
    cases cs with
    | nil => rfl
    | cons d ds =>
      have hstep : containsDoubleSlash (c :: d :: (ds ++ r)) = false := h
      unfold containsDoubleSlash at hstep
      simp only [Bool.or_eq_false_iff] at hstep
      have ihd := ih hstep.2
      unfold containsDoubleSlash
      simp only [Bool.or_eq_false_iff]
      exact ⟨hstep.1, ihd⟩

theorem containsDoubleSlash_append_two_slashes (a : List Char) :
    containsDoubleSlash (a ++ ['/', '/']) = true := by
  induction a with
  | nil => rfl
  | cons c cs ih =>
    cases cs with
    | nil => simp [containsDoubleSlash]
    | cons d ds =>
      show containsDoubleSlash (c :: d :: (ds ++ ['/', '/'])) = true
      unfold containsDoubleSlash
      rw [show d :: (ds ++ ['/', '/']) = (d :: ds) ++ ['/', '/'] from rfl, ih]
      simp

/-- The slash-collapsed prefix of a raw path, before query and
trailing-slash trimming. -/
theorem normalizeList_parts (raw : List Char) :
    ∃ q : List Char,
      (∃ u, q = '/' :: u) ∧
      containsDoubleSlash q = false ∧
      (∀ c ∈ q, c ≠ '?') ∧
      normalizeList raw =
        (if 1 < q.length ∧ q.getLast? = some '/' then q.dropLast else q) := by
  obtain ⟨u0, hu0⟩ := ensureSlash_head (stripBang (stripHash (jsTrim raw)))
  obtain ⟨u1, hu1⟩ := collapseSlashes_cons '/' u0
  have hmhead : collapseSlashes (ensureSlash (stripBang (stripHash (jsTrim raw)))) = '/' :: u1 := by
    rw [hu0]; exact hu1
  set m := collapseSlashes (ensureSlash (stripBang (stripHash (jsTrim raw)))) with hm
  have hmcds : containsDoubleSlash m = false := containsDoubleSlash_collapseSlashes _
  have hqhead : dropQuery m = '/' :: u1.takeWhile (fun c => c ≠ '?') := by
    rw [hmhead]
    simp [dropQuery, List.takeWhile]
  have hqcds : containsDoubleSlash (dropQuery m) = false :=
    containsDoubleSlash_append_left (dropQuery m) (m.dropWhile (fun c => c ≠ '?'))
      (by unfold dropQuery; rw [List.takeWhile_append_dropWhile]; exact hmcds)
  have hqmem : ∀ c ∈ dropQuery m, c ≠ '?' := by
    intro c hc
    have := List.mem_takeWhile_imp hc
    simpa using this
  have hqne : dropQuery m ≠ [] := by rw [hqhead]; simp
  refine ⟨dropQuery m, ⟨_, hqhead⟩, hqcds, hqmem, ?_⟩
  have hdts : dropTrailingSlash (dropQuery m) =
      (if 1 < (dropQuery m).length ∧ (dropQuery m).getLast? = some '/'
       then (dropQuery m).dropLast else dropQuery m) := rfl
  have hcleanne : dropTrailingSlash (dropQuery m) ≠ [] := by
    rw [hdts]
    by_cases hcond : 1 < (dropQuery m).length ∧ (dropQuery m).getLast? = some '/'
    · rw [if_pos hcond]
      intro hnil
      have hlen := congrArg List.length hnil
      simp [List.length_dropLast] at hlen
      omega
    · rw [if_neg hcond]
      exact hqne
  show normalizeList raw = _
  unfold normalizeList
  rw [← hm]
  show (if dropTrailingSlash (dropQuery m) = [] then ['/'] else dropTrailingSlash (dropQuery m)) = _
  rw [if_neg hcleanne, hdts]

/-- **C6 core**: `normalizeList` output starts with `/`, has no `"//"`,
contains no `?`, and ends with `/` only when it is exactly `"/"`. -/
theorem normalizeList_shape (raw : List Char) :
    (∃ t, normalizeList raw = '/' :: t) ∧
    containsDoubleSlash (normalizeList raw) = false ∧
    (∀ c ∈ normalizeList raw, c ≠ '?') ∧
    (normalizeList raw ≠ ['/'] → (normalizeList raw).getLast? ≠ some '/') := by
  obtain ⟨q, ⟨u, hqu⟩, hcds, hq, hres⟩ := normalizeList_parts raw
  by_cases hcond : 1 < q.length ∧ q.getLast? = some '/'
  · rw [hres, if_pos hcond]
    have hqdecomp := List.dropLast_append_getLast? '/' hcond.2
    have hdlnil : q.dropLast ≠ [] := by
      intro hnil
      have hlen := congrArg List.length hnil
      simp [List.length_dropLast] at hlen
      omega
    have hheadkeep : ∃ t, q.dropLast = '/' :: t := by
      rcases q with _ | ⟨c, cs⟩
      · simp at hqu
      · rcases cs with _ | ⟨d, ds⟩
        · simp at hcond
        · rw [List.dropLast_cons₂]
          have : c = '/' := by
            have := hqu
            simp at this
            exact this.1
          exact ⟨(d :: ds).dropLast, by rw [this]⟩
    refine ⟨hheadkeep, ?_, ?_, ?_⟩
    · exact containsDoubleSlash_append_left _ _ (hqdecomp ▸ hcds)
    · intro c hc
      exact hq c (hqdecomp ▸ List.mem_append_left _ hc)
    · intro _ hlast
      have hdecomp2 := List.dropLast_append_getLast? '/' hlast
      have : q = (q.dropLast.dropLast ++ ['/']) ++ ['/'] := by
        rw [hdecomp2, hqdecomp]
      have h2 : q = q.dropLast.dropLast ++ ['/', '/'] := by
        rw [this]; simp
      rw [h2] at hcds
      rw [containsDoubleSlash_append_two_slashes] at hcds
      exact Bool.true_eq_false.mp hcds
  · rw [hres, if_neg hcond]
    refine ⟨⟨u, hqu⟩, hcds, hq, ?_⟩
    intro hne hlast
    have hlen : ¬ 1 < q.length := by
      intro hgt
      exact hcond ⟨hgt, hlast⟩
    have : q = ['/'] := by
      rcases q with _ | ⟨c, cs⟩
      · simp at hqu
      · rcases cs with _ | ⟨d, ds⟩
        · have : c = '/' := by simpa using congrArg (fun l => l.head?) hqu
          rw [this]
        · simp at hlen
    exact hne this

/-! ## Fixed points of `normalizePath`

A path that `normalizePath` maps to itself (such as the stored default
route, which `initRouter` normalizes before storing) passes through the
pipeline unchanged even after the router prepends `#` when writing it to
the fragment register. -/

theorem dropWhile_eq_self_of_head (p : Char → Bool) (l : List Char)
    (h : ∀ c, l.head? = some c → p c = false) : l.dropWhile p = l := by
  cases l with
  | nil => rfl
  | cons c t =>
    rw [List.dropWhile_cons]
    simp [h c rfl]

theorem length_dropWhile_lt_of_head (p : Char → Bool) (c : Char) (t : List Char)
    (h : p c = true) : ((c :: t).dropWhile p).length < (c :: t).length := by
  rw [List.dropWhile_cons]
  simp only [h, if_true]
  have : ∀ m : List Char, (m.dropWhile p).length ≤ m.length := by
    intro m
    induction m with
    | nil => simp
    | cons a s ih =>
      rw [List.dropWhile_cons]
      by_cases ha : p a <;> (simp [ha]; try omega)
  have := this t
  simp only [List.length_cons]
  omega

theorem length_collapseSlashes_le (l : List Char) :
    (collapseSlashes l).length ≤ l.length := by
  induction l with
  | nil => simp [collapseSlashes]
  | cons c r ih =>
    cases r with
    | nil => simp [collapseSlashes]
    | cons d rest =>
      show (if c = '/' ∧ d = '/' then collapseSlashes (d :: rest)
            else c :: collapseSlashes (d :: rest)).length ≤ (c :: d :: rest).length
      have hle := ih
      by_cases hcd : c = '/' ∧ d = '/'
      · rw [if_pos hcd]
        simp only [List.length_cons] at hle ⊢
        omega
      · rw [if_neg hcd]
        simp only [List.length_cons] at hle ⊢
        omega

theorem collapseSlashes_eq_self (l : List Char)
    (h : containsDoubleSlash l = false) : collapseSlashes l = l := by
  induction l with
  | nil => rfl
  | cons c r ih =>
    cases r with
    | nil => rfl
    | cons d rest =>
      have hstep : containsDoubleSlash (c :: d :: rest) = false := h
      unfold containsDoubleSlash at hstep
      simp only [Bool.or_eq_false_iff] at hstep
      have hcd : ¬(c = '/' ∧ d = '/') := by
        intro ⟨h1, h2⟩
        rw [h1, h2] at hstep
        simp at hstep
      show (if c = '/' ∧ d = '/' then collapseSlashes (d :: rest)
            else c :: collapseSlashes (d :: rest)) = c :: d :: rest
      rw [if_neg hcd, ih hstep.2]

theorem takeWhile_eq_self_of_mem (p : Char → Bool) (l : List Char)
    (h : ∀ c ∈ l, p c = true) : l.takeWhile p = l := by
  induction l with
  | nil => rfl
  | cons c t ih =>
    rw [List.takeWhile_cons]
    simp only [h c (List.mem_cons_self c t), if_true]
    rw [ih (fun x hx => h x (List.mem_cons_of_mem c hx))]

/-- A fixed point of `normalizeList` does not end in JS whitespace. -/
theorem normalizeList_fix_getLast_not_ws (q : List Char)
    (hfix : normalizeList q = q) :
    ∀ c, q.getLast? = some c → isJsWs c = false := by
  intro c hlast
  by_contra hws
  have hws' : isJsWs c = true := by
    cases hcase : isJsWs c
    · exact absurd hcase hws
    · rfl
  obtain ⟨t, hhead⟩ := (normalizeList_shape q).1
  rw [hfix] at hhead
  have hqne : q ≠ [] := by rw [hhead]; simp
  -- leading whitespace: none, since the head is '/'
  have hlead : q.dropWhile isJsWs = q := by
    apply dropWhile_eq_self_of_head
    intro d hd
    rw [hhead] at hd
    simp at hd
    rw [← hd]
    decide
  -- the reversed list starts with the whitespace character `c`
  have hrevhead : q.reverse.head? = some c := by
    rw [List.head?_reverse]
    exact hlast
  obtain ⟨c', t', hrev⟩ : ∃ c' t', q.reverse = c' :: t' := by
    cases hr : q.reverse with
    | nil => rw [hr] at hrevhead; simp at hrevhead
    | cons a b => exact ⟨a, b, rfl⟩
  have hc' : c' = c := by
    rw [hrev] at hrevhead
    simpa using hrevhead
  -- trimming shortens the list
  have htrim : (jsTrim q).length < q.length := by
    unfold jsTrim
    rw [hlead, hrev, List.length_reverse]
    have := length_dropWhile_lt_of_head isJsWs c' t' (by rw [hc']; exact hws')
    have hqlen : (c' :: t').length = q.length := by
      rw [← hrev, List.length_reverse]
    omega
  -- but the pipeline never lengthens its input, contradicting the fixed point
  have hT : ∃ s, jsTrim q = '/' :: s := by
    -- jsTrim q is an initial piece of q: q = jsTrim q ++ (dropped whitespace)
    have hdecomp : q = jsTrim q ++ (q.reverse.takeWhile isJsWs).reverse := by
      unfold jsTrim
      rw [hlead]
      have := List.takeWhile_append_dropWhile (p := isJsWs) (l := q.reverse)
      calc q = q.reverse.reverse := by rw [List.reverse_reverse]
        _ = (q.reverse.takeWhile isJsWs ++ q.reverse.dropWhile isJsWs).reverse := by rw [this]
        _ = (q.reverse.dropWhile isJsWs).reverse ++ (q.reverse.takeWhile isJsWs).reverse := by
              rw [List.reverse_append]

    cases hjt : jsTrim q with
    | nil =>
      exfalso
      rw [hjt] at hdecomp
      simp at hdecomp
      -- then every character of q is whitespace, but the head is '/'
      have hqhead : q.head? = some '/' := by rw [hhead]; simp
      have : '/' ∈ q := by
        rw [hhead]; exact List.mem_cons_self _ _
      rw [hdecomp] at this
      have := List.mem_takeWhile_imp (List.mem_reverse.mp this)
      simp [isJsWs] at this
    | cons a s =>
      refine ⟨s, ?_⟩
      have hha : q.head? = some a := by
        rw [hdecomp, hjt]
        simp
      rw [hhead] at hha
      have ha : a = '/' := by
        simp only [List.head?_cons, Option.some.injEq] at hha
        exact hha.symm
      rw [ha]
  obtain ⟨s, hTeq⟩ := hT
  have hlenchain : (normalizeList q).length ≤ (jsTrim q).length := by
    unfold normalizeList
    have h1 : stripHash (jsTrim q) = jsTrim q := by rw [hTeq]; rfl
    have h2 : stripBang (jsTrim q) = jsTrim q := by rw [hTeq]; rfl
    have h3 : ensureSlash (jsTrim q) = jsTrim q := by rw [hTeq]; rfl
    rw [h1, h2, h3]
    have h4 := length_collapseSlashes_le (jsTrim q)
    have h5 : (dropQuery (collapseSlashes (jsTrim q))).length ≤
        (collapseSlashes (jsTrim q)).length := by
      unfold dropQuery
      have := List.takeWhile_append_dropWhile (p := fun c => decide (c ≠ '?'))
        (l := collapseSlashes (jsTrim q))
      have hlen := congrArg List.length this
      rw [List.length_append] at hlen
      omega
    have h6 : (dropTrailingSlash (dropQuery (collapseSlashes (jsTrim q)))).length ≤
        (dropQuery (collapseSlashes (jsTrim q))).length := by
      unfold dropTrailingSlash
      split
      · simp [List.length_dropLast]
      · exact le_refl _
    show (if dropTrailingSlash (dropQuery (collapseSlashes (jsTrim q))) = []
          then ['/']
          else dropTrailingSlash (dropQuery (collapseSlashes (jsTrim q)))).length ≤
        (jsTrim q).length
    split
    · next heq =>
      -- the empty-result branch yields ['/'] of length one; jsTrim q is nonempty
      have : 1 ≤ (jsTrim q).length := by rw [hTeq]; simp
      simpa using this
    · omega
  rw [hfix] at hlenchain
  omega

/-- Prepending `#` to a fixed point of `normalizePath` and normalizing
again returns the fixed point: this is what `handleRouteChange` computes
after `navigate` writes `'#' + normalizePath(path)` for an already
normalized `path`. -/
theorem normalizeList_hash_fix (q : List Char) (hfix : normalizeList q = q) :
    normalizeList ('#' :: q) = q := by
  obtain ⟨t, hhead⟩ := (normalizeList_shape q).1
  rw [hfix] at hhead
  have hcds : containsDoubleSlash q = false := by
    have := (normalizeList_shape q).2.1
    rwa [hfix] at this
  have hmem : ∀ c ∈ q, c ≠ '?' := by
    have := (normalizeList_shape q).2.2.1
    rwa [hfix] at this
  have htrail : q ≠ ['/'] → q.getLast? ≠ some '/' := by
    have := (normalizeList_shape q).2.2.2
    rwa [hfix] at this
  have hlastws := normalizeList_fix_getLast_not_ws q hfix
  have hqne : q ≠ [] := by rw [hhead]; simp
  -- trim is the identity on '#' :: q
  have htrim : jsTrim ('#' :: q) = '#' :: q := by
    unfold jsTrim
    have hlead : ('#' :: q).dropWhile isJsWs = '#' :: q := by
      apply dropWhile_eq_self_of_head
      intro d hd
      simp at hd
      rw [← hd]
      decide
    rw [hlead]
    have htrl : ('#' :: q).reverse.dropWhile isJsWs = ('#' :: q).reverse := by
      apply dropWhile_eq_self_of_head
      intro d hd
      rw [List.head?_reverse] at hd
      have hlq : ('#' :: q).getLast? = q.getLast? := by
        cases q with
        | nil => exact absurd rfl hqne
        | cons a b => exact List.getLast?_cons_cons
      rw [hlq] at hd
      exact hlastws d hd
    rw [htrl, List.reverse_reverse]
  have h2 : stripBang q = q := by rw [hhead]; rfl
  have h3 : ensureSlash q = q := by rw [hhead]; rfl
  have h4 : dropQuery q = q := by
    unfold dropQuery
    apply takeWhile_eq_self_of_mem
    intro c hc
    simpa using hmem c hc
  have h5 : dropTrailingSlash q = q := by
    unfold dropTrailingSlash
    split
    · next hcond =>
      exfalso
      by_cases hq : q = ['/']
      · rw [hq] at hcond
        simp at hcond
      · exact htrail hq hcond.2
    · rfl
  unfold normalizeList
  rw [htrim]
  have h1 : stripHash ('#' :: q) = q := rfl
  rw [h1, h2, h3, collapseSlashes_eq_self q hcds, h4, h5]
  show (if q = [] then ['/'] else q) = q
  rw [if_neg hqne]

/-- String-level version of `normalizeList_hash_fix`. -/
theorem normalizePath_hash_fix (d : String) (hfix : normalizePath d = d) :
    normalizePath ("#" ++ d) = d := by
  have hdata : normalizeList d.data = d.data := by
    have := congrArg String.data hfix
    simpa [normalizePath] using this
  unfold normalizePath
  have : ("#" ++ d).data = '#' :: d.data := by simp
  rw [this, normalizeList_hash_fix d.data hdata]

/-! ## Claims -/

/-- **C1** — the claim reads: building a Route from any raw fragment never
throws.  `normalizePath` and `toSegments` are total, but `parseParams`
(and hence `buildRouteFrom`) calls `decodeURIComponent` on the pieces of
the query string with no guard, and `decodeURIComponent("%zz")` throws
`URIError`: here at the fragment `#/home?a=%zz` the route construction
throws (`= none`) even though the path part normalizes fine. -/
theorem c1_parseParams_throws_on_malformed_escape :
    normalizePath "#/home?a=%zz" = "/home" ∧
    toSegments (normalizePath "#/home?a=%zz") = ["home"] ∧
    parseParams "#/home?a=%zz" = none ∧
    buildRouteFrom "#/home?a=%zz" = none := by
  refine ⟨by decide, by decide, by decide, by decide⟩

/-- **C6** — for every raw fragment string, `normalizePath` returns a path
that starts with `/`, contains no `//` substring, and does not end with
`/` unless the result is exactly `"/"`. -/
theorem c6_normalize_shape (x : String) :
    (normalizePath x).data.head? = some '/' ∧
    containsDoubleSlash (normalizePath x).data = false ∧
    ((normalizePath x).data.getLast? = some '/' → normalizePath x = "/") := by
  obtain ⟨⟨u, hu⟩, hcds, _, htrail⟩ := normalizeList_shape x.data
  have hdata : (normalizePath x).data = normalizeList x.data := rfl
  refine ⟨?_, ?_, ?_⟩
  · rw [hdata, hu]; rfl
  · rw [hdata]; exact hcds
  · intro hlast
    rw [hdata] at hlast
    by_cases hroot : normalizeList x.data = ['/']
    · show String.mk (normalizeList x.data) = "/"
      rw [hroot]
    · exact absurd hlast (htrail hroot)

/-- **C6 witness** — the implication's hypothesis is satisfied at the empty
fragment, whose normalization is exactly `"/"`. -/
theorem c6_normalize_shape_witness :
    (normalizePath "").data.getLast? = some '/' ∧ normalizePath "" = "/" :=
  ⟨by decide, (c6_normalize_shape "").2.2 (by decide)⟩

/-- The locale-detection result is always a registered language when the
previous current language was. -/
theorem initDetected_known (s : I18nState) (navLang : Option String)
    (h : dictHas s.currentLang = true) :
    dictHas (initDetected s navLang) = true := by
  unfold initDetected
  cases navLang with
  | none => exact h
  | some nl =>
    simp only
    split
    · next hs => exact hs
    · exact h

/-- `initI18n` and `setLanguage` keep the current language registered. -/
theorem i18nApply_keeps_known (s : I18nState) (op : LOp)
    (h : dictHas s.currentLang = true) :
    dictHas ((i18nApply s op).1).currentLang = true := by
  cases op with
  | setLang lang =>
    show dictHas ((setLanguageStep s lang).1).currentLang = true
    unfold setLanguageStep
    split
    · next hok => simpa using hok
    · simpa using h
  | init saved navLang =>
    show dictHas ((initI18nStep s saved navLang).1).currentLang = true
    unfold initI18nStep
    cases saved with
    | none => exact initDetected_known s navLang h
    | some sv =>
      simp only
      split
      · next hok =>
        simp only [Bool.and_eq_true] at hok
        simpa using hok.2
      · exact initDetected_known s navLang h

/-- **C8 counterexample** — the claim's invariant ("currentLanguage is a
key present in the dictionaries mapping after every setLanguage call")
is false of the code: `setLanguage('toString')` passes the
`!dictionaries[lang]` guard because the bracket lookup finds the
*inherited* `Object.prototype.toString` (truthy), even though
`"toString"` is not a dictionary key — the non-key language is stored,
persisted, and a notification fires. -/
theorem c8_prototype_chain_counterexample :
    (getEntry dictionaries "toString").isSome = false ∧
    setLanguageStep i18nInitial "toString" =
      ({ currentLang := "toString", storedLang := some "toString" }, some "toString") := by
  refine ⟨by decide, by decide⟩

/-- **C8 (amended)** — after initialization and after every `setLanguage`
call, the current language is a `dictionaries` key *or* a name inherited
from `Object.prototype` (the prototype hole exhibited by the
counterexample); `setLanguage` with a code that is neither — such as
`"fr"` when only `en`/`es` are registered — leaves the current language
unchanged, persists nothing, and fires no notification. -/
theorem c8_language_guard_amended (s : I18nState) (hs : ReachableL s) :
    dictHas s.currentLang = true ∧
    (∀ lang, dictHas lang = false → setLanguageStep s lang = (s, none)) := by
  constructor
  · induction hs with
    | base => decide
    | step op hprev ih => exact i18nApply_keeps_known _ op ih
  · intro lang hlang
    unfold setLanguageStep
    rw [hlang]
    simp

/-- **C8 witness** — at the freshly loaded module: `"en"` is registered,
and `setLanguage("fr")` (`"fr"` being neither a dictionary key nor an
inherited name) changes nothing and notifies nobody. -/
theorem c8_language_guard_amended_witness :
    dictHas i18nInitial.currentLang = true ∧
    setLanguageStep i18nInitial "fr" = (i18nInitial, none) := by
  have h := c8_language_guard_amended i18nInitial ReachableL.base
  exact ⟨h.1, h.2 "fr" (by decide)⟩

/-- **C9** — one notification pass of the router's `emit` or the
translation registry's `emitLanguageChange`: every registered listener is
invoked, in registration order, and no exception escapes to the caller —
a throwing listener (an `.error` outcome) is swallowed by the per-call
`try`/`catch` and does not stop the pass. -/
theorem c9_fanout_isolates_listener_exceptions
    (ls : List (Nat × Except String Unit)) :
    listenerFanOut ls = .ok (ls.map Prod.fst) := by
  induction ls with
  | nil => rfl
  | cons p rest ih =>
    obtain ⟨i, res⟩ := p
    cases res with
    | ok u => simp [listenerFanOut, ih]
    | error e => simp [listenerFanOut, ih]

/-- **C10** — `getRoute` before any resolution (`currentRoute = null`)
returns the parse of the raw fragment with no whitelist validation; for
the empty fragment this is `{path: "/", segments: [], params: {}}`, which
is not an allowed route. -/
theorem c10_getroute_unvalidated (s : RouterState)
    (h : s.currentRoute = none) :
    getRoute s = buildRouteFrom s.hash ∧
    (s.hash = "" →
      getRoute s = some { path := "/", segments := [], params := [] } ∧
      isAllowedRoute "/" = false) := by
  have hg : getRoute s = buildRouteFrom s.hash := by
    unfold getRoute
    rw [h]
  refine ⟨hg, ?_⟩
  intro hh
  rw [hg, hh]
  exact ⟨by decide, by decide⟩

/-- **C10 witness** — the freshly loaded router with an empty fragment. -/
theorem c10_getroute_unvalidated_witness :
    getRoute (mkInitial "") = some { path := "/", segments := [], params := [] } ∧
    isAllowedRoute "/" = false :=
  (c10_getroute_unvalidated (mkInitial "") rfl).2 rfl

/-- **C3 counterexample** — the claim expects
`{path: "/basic/network", segments: ["basic","network"], params: {tab: "wifi"}}`
after `navigate("/basic/network?tab=wifi")` settles, but `navigate`
normalizes the target before writing the fragment, and normalization
drops the query string: the settled route has empty `params`. -/
theorem c3_navigate_strips_query_counterexample :
    getRoute afterNavBasicNetwork ≠
      some { path := "/basic/network", segments := ["basic", "network"],
             params := [("tab", "wifi")] } ∧
    getRoute afterNavBasicNetwork =
      some { path := "/basic/network", segments := ["basic", "network"], params := [] } := by
  refine ⟨by decide, by decide⟩

/-- **C3 (amended)** — from any router state, `navigate("/basic/network?tab=wifi")`
followed by the resolution it schedules settles on
`{path: "/basic/network", segments: ["basic","network"], params: {}}`:
the query parameter is dropped because `navigate` writes
`'#' + normalizePath(path)` to the fragment, and `normalizePath` strips
everything from `?` on. -/
theorem c3_navigate_strips_query_amended (s : RouterState) :
    getRoute (routerApply (routerApply s (.nav "/basic/network?tab=wifi")).1 .resolve).1 =
      some { path := "/basic/network", segments := ["basic", "network"], params := [] } ∧
    ((routerApply (routerApply s (.nav "/basic/network?tab=wifi")).1 .resolve).1).pendingResolve
      = false := by
  have e1 : (routerApply s (.nav "/basic/network?tab=wifi")).1 =
      navigateStep s "/basic/network?tab=wifi" := rfl
  rw [e1]
  have hhash : (navigateStep s "/basic/network?tab=wifi").hash = "#/basic/network" := by
    show "#" ++ normalizePath "/basic/network?tab=wifi" = "#/basic/network"
    decide
  have hpend : (navigateStep s "/basic/network?tab=wifi").pendingResolve = true := rfl
  have e2 : routerApply (navigateStep s "/basic/network?tab=wifi") .resolve =
      resolveStep (navigateStep s "/basic/network?tab=wifi") := by
    show (if (navigateStep s "/basic/network?tab=wifi").pendingResolve = true
          then resolveStep (navigateStep s "/basic/network?tab=wifi")
          else (navigateStep s "/basic/network?tab=wifi", [])) =
        resolveStep (navigateStep s "/basic/network?tab=wifi")
    rw [hpend]
    simp
  rw [e2]
  have hb : buildRouteFrom "#/basic/network" =
      some { path := "/basic/network", segments := ["basic", "network"], params := [] } := by
    decide
  have e3 : resolveStep (navigateStep s "/basic/network?tab=wifi") =
      ({ { navigateStep s "/basic/network?tab=wifi" with pendingResolve := false } with
          currentRoute :=
            some { path := "/basic/network", segments := ["basic", "network"], params := [] } },
        [{ path := "/basic/network", segments := ["basic", "network"], params := [] }]) := by
    unfold resolveStep
    rw [hhash, hb]
    dsimp only
    rw [if_pos (by decide : isAllowedRoute "/basic/network" = true), hhash]
  rw [e3]
  exact ⟨rfl, rfl⟩

/-- **C7 counterexample** — the claim says `translate` returns a *string*
for every dotted key, but: for a key naming an interior dictionary node
(`"app"`) the source returns the nested object as-is
(`return val !== undefined ? val : key`); and because `hasOwnProperty`
boxes primitive strings, `"app.title.length"` resolves through the string
leaf to the *number* `14` (and `"app.title.0"` to the one-character
string `"U"`), not to the raw key.  The last conjunct shows the normal
string case for contrast. -/
theorem c7_translate_returns_object_counterexample :
    (t "en" "app" none).isStr = false ∧
    t "en" "app.title.length" none = .num 14 ∧
    t "en" "app.title.0" none = .str "U" ∧
    t "es" "app.title" none = .str "Panel de Usuario" :=
  ⟨rfl, rfl, rfl, rfl⟩

/-- **C7 (amended)** — `translate` never throws and never returns
`undefined`: it returns the current-language resolution when the key
resolves there — where resolution walks own properties *including* a
boxed string's intrinsics, so a key such as `app.title.length` yields the
number `14`, not a string — interpolated when the value is a string,
as-is otherwise; on a miss it falls back to the default-language (`"en"`)
resolution, and only when both miss does it return the raw key
(interpolated).  Stated over an arbitrary registry `dicts` because the
shipped `en`/`es` dictionaries have identical key sets, so the key-level
fallback branch is unreachable with them.  The hypothesis `_hl` confines
the statement to languages that select an own dictionary or the `en`
fallback: a current language naming an inherited `Object.prototype`
member (reachable only through the prototype hole of `setLanguage`)
selects an opaque built-in whose deeper properties are beyond the model
boundary. -/
theorem c7_translate_resolution_amended
    (dicts : List (String × TransVal)) (lang key : String)
    (vars : Option (List (String × String)))
    (_hl : (getEntry dicts lang).isSome = true ∨ protoMember lang = none) :
    (∀ s, pathGet (activeDict dicts lang) key = some (.str s) →
      tWith dicts lang key vars = .str (interpolate s vars)) ∧
    (∀ v, pathGet (activeDict dicts lang) key = some v → v.isStr = false →
      tWith dicts lang key vars = v) ∧
    (∀ s, pathGet (activeDict dicts lang) key = none →
      pathGet (defaultDict dicts) key = some (.str s) →
      tWith dicts lang key vars = .str (interpolate s vars)) ∧
    (pathGet (activeDict dicts lang) key = none →
      pathGet (defaultDict dicts) key = none →
      tWith dicts lang key vars = .str (interpolate key vars)) := by
  refine ⟨?_, ?_, ?_, ?_⟩
  · intro v h
    simp [tWith, h]
  · intro v h hv
    cases v with
    | str w => simp [TransVal.isStr] at hv
    | obj es => simp [tWith, h]
    | num n => simp [tWith, h]
    | builtin d => simp [tWith, h]
  · intro v h1 h2
    simp [tWith, h1, h2]
  · intro h1 h2
    simp [tWith, h1, h2]

/-- **C7 witness** — a registry where the active language misses a key the
default language has: `t` falls back to the `"en"` value, not the key. -/
theorem c7_translate_resolution_amended_witness :
    (getEntry twoLangRegistry "xx").isSome = true ∧
    pathGet (activeDict twoLangRegistry "xx") "k" = none ∧
    pathGet (defaultDict twoLangRegistry) "k" = some (.str "fallback") ∧
    tWith twoLangRegistry "xx" "k" none = .str "fallback" := by
  refine ⟨rfl, rfl, rfl, ?_⟩
  exact (c7_translate_resolution_amended twoLangRegistry "xx" "k" none
    (Or.inl rfl)).2.2.1 "fallback" rfl rfl

/-- The head piece of a character split is the run before the first
separator. -/
theorem splitOnChar_head (sep : Char) (l : List Char) :
    ∃ tl, splitOnChar sep l = l.takeWhile (fun c => c ≠ sep) :: tl := by
  induction l with
  | nil => exact ⟨[], rfl⟩
  | cons c rest ih =>
    by_cases hc : c = sep
    · subst hc
      refine ⟨splitOnChar c rest, ?_⟩
      show (if c = c then [] :: splitOnChar c rest
            else match splitOnChar c rest with
                 | [] => [[c]]
                 | h :: t => (c :: h) :: t) = _
      rw [if_pos rfl, List.takeWhile_cons]
      simp
    · obtain ⟨tl, htl⟩ := ih
      refine ⟨tl, ?_⟩
      show (if c = sep then [] :: splitOnChar sep rest
            else match splitOnChar sep rest with
                 | [] => [[c]]
                 | h :: t => (c :: h) :: t) = _
      rw [if_neg hc, htl, List.takeWhile_cons]
      simp [hc]

/-- `renderRoute` on an `/application/…` route: the `sub` argument is the
second path segment (`path.split('/')[2]`), with `'preferences'` for an
empty segment. -/
theorem resolvePage_application_sub (x : String) (segs : List String)
    (prms : List (String × String)) :
    resolvePage { path := "/application/" ++ x, segments := segs, params := prms } =
      .application
        (if String.mk (x.data.takeWhile (fun c => c ≠ '/')) = "" then "preferences"
         else String.mk (x.data.takeWhile (fun c => c ≠ '/'))) := by
  obtain ⟨tl, htl⟩ := splitOnChar_head '/' x.data
  have hsplit : splitOnChar '/'
      ('/' :: 'a' :: 'p' :: 'p' :: 'l' :: 'i' :: 'c' :: 'a' :: 't' :: 'i' :: 'o' :: 'n' :: '/'
        :: x.data) =
      [] :: ['a', 'p', 'p', 'l', 'i', 'c', 'a', 't', 'i', 'o', 'n'] :: splitOnChar '/' x.data :=
    rfl
  simp [resolvePage, startsWithL, String.ext_iff, hsplit, htl, List.getD]

/-- **C5 counterexample** — the claim says every prefix-table entry,
including `/home`, also matches `prefix + "/"` routes; but `renderRoute`
matches `/home` only exactly, so `/home/network` falls through to the
not-found renderer instead of the home renderer. -/
theorem c5_home_subroute_not_found_counterexample :
    resolvePage { path := "/home/network", segments := ["home", "network"], params := [] } =
      Page.notFound ∧
    Page.notFound ≠ Page.home := by
  refine ⟨by decide, by decide⟩

/-- **C5 (amended)** — the prefix table of `renderRoute`: `/status`,
`/basic`, `/advanced`, `/management` and `/application` each match exactly
or with a `"/"`-separated suffix; `/home` matches only exactly, and
`/home/…` routes select the not-found renderer; any non-empty path that
matches no entry (equal to none of the six prefixes and extending none of
the five suffix-matching ones — an empty path defaults to `/home`)
selects the not-found renderer; for `/application` the second path
segment (default `"preferences"` when absent or empty) is passed as the
renderer's `sub` argument. -/
theorem c5_prefix_table_amended (p : String) (segs : List String)
    (prms : List (String × String)) :
    (p = "/home" → resolvePage { path := p, segments := segs, params := prms } = Page.home) ∧
    (∀ x, p = "/home/" ++ x →
      resolvePage { path := p, segments := segs, params := prms } = Page.notFound) ∧
    (∀ x, p = "/status" ∨ p = "/status/" ++ x →
      resolvePage { path := p, segments := segs, params := prms } = Page.status) ∧
    (∀ x, p = "/basic" ∨ p = "/basic/" ++ x →
      resolvePage { path := p, segments := segs, params := prms } = Page.basicSettings) ∧
    (∀ x, p = "/advanced" ∨ p = "/advanced/" ++ x →
      resolvePage { path := p, segments := segs, params := prms } = Page.advancedSettings) ∧
    (∀ x, p = "/management" ∨ p = "/management/" ++ x →
      resolvePage { path := p, segments := segs, params := prms } = Page.management) ∧
    (p = "/application" →
      resolvePage { path := p, segments := segs, params := prms } =
        Page.application "preferences") ∧
    (∀ x, p = "/application/" ++ x →
      resolvePage { path := p, segments := segs, params := prms } =
        Page.application
          (if String.mk (x.data.takeWhile (fun c => c ≠ '/')) = "" then "preferences"
           else String.mk (x.data.takeWhile (fun c => c ≠ '/')))) ∧
    (p ≠ "" → p ≠ "/home" →
      p ≠ "/status" → startsWithL p.data "/status/".data = false →
      p ≠ "/basic" → startsWithL p.data "/basic/".data = false →
      p ≠ "/advanced" → startsWithL p.data "/advanced/".data = false →
      p ≠ "/management" → startsWithL p.data "/management/".data = false →
      p ≠ "/application" → startsWithL p.data "/application/".data = false →
      resolvePage { path := p, segments := segs, params := prms } = Page.notFound) := by
  refine ⟨?_, ?_, ?_, ?_, ?_, ?_, ?_, ?_, ?_⟩
  · intro h
    subst h
    simp [resolvePage]
  · intro x h
    subst h
    simp [resolvePage, startsWithL, String.ext_iff]
  · intro x h
    cases h with
    | inl h => subst h; simp [resolvePage, startsWithL, String.ext_iff]
    | inr h => subst h; simp [resolvePage, startsWithL, String.ext_iff]
  · intro x h
    cases h with
    | inl h => subst h; simp [resolvePage, startsWithL, String.ext_iff]
    | inr h => subst h; simp [resolvePage, startsWithL, String.ext_iff]
  · intro x h
    cases h with
    | inl h => subst h; simp [resolvePage, startsWithL, String.ext_iff]
    | inr h => subst h; simp [resolvePage, startsWithL, String.ext_iff]
  · intro x h
    cases h with
    | inl h => subst h; simp [resolvePage, startsWithL, String.ext_iff]
    | inr h => subst h; simp [resolvePage, startsWithL, String.ext_iff]
  · intro h
    subst h
    have : resolvePage { path := "/application", segments := segs, params := prms } =
        resolvePage { path := "/application", segments := [], params := [] } := by
      simp [resolvePage]
    rw [this]
    decide
  · intro x h
    subst h
    exact resolvePage_application_sub x segs prms
  · intro h0 h1 h2 h3 h4 h5 h6 h7 h8 h9 h10 h11
    simp [resolvePage, h0, h1, h2, h3, h4, h5, h6, h7, h8, h9, h10, h11]

/-- The default-route update leaves `currentRoute` unchanged. -/
theorem applyDefaultRoute_currentRoute (s : RouterState) (d : Option String) :
    (applyDefaultRoute s d).currentRoute = s.currentRoute := by
  unfold applyDefaultRoute
  cases d with
  | none => rfl
  | some ds =>
    dsimp only
    split <;> rfl

/-- Replayed routes are exactly the stored current route. -/
theorem replayList_mem (s : RouterState) (r : Route) (h : r ∈ replayList s) :
    s.currentRoute = some r := by
  unfold replayList at h
  cases hc : s.currentRoute with
  | none => rw [hc] at h; simp at h
  | some r0 =>
    rw [hc] at h
    simp only [List.mem_singleton] at h
    rw [h]

/-- `initRouter` never touches the stored current route. -/
theorem routerApply_init_currentRoute (s : RouterState) (d : Option String)
    (l : Option Nat) :
    ((routerApply s (.init d l)).1).currentRoute = s.currentRoute := by
  unfold routerApply
  cases hi : s.isInitialized
  all_goals simp only [hi, Bool.false_eq_true, if_false, if_true]
  all_goals cases l <;> dsimp only
  all_goals rw [applyDefaultRoute_currentRoute]

/-- `resolveStep` preserves the stored-route invariant and emits only
allowed routes. -/
theorem resolveStep_preserves (s : RouterState) (h : RouterInv s) :
    RouterInv (resolveStep s).1 ∧
    (∀ r ∈ (resolveStep s).2, isAllowedRoute r.path = true) := by
  unfold resolveStep
  cases hb : buildRouteFrom s.hash with
  | none =>
    dsimp only
    exact ⟨h, by simp⟩
  | some route =>
    dsimp only
    by_cases ha : isAllowedRoute route.path = true
    · rw [if_pos ha]
      constructor
      · exact Or.inr ⟨route, rfl, ha⟩
      · intro r hr
        simp only [List.mem_singleton] at hr
        rw [hr]
        exact ha
    · rw [if_neg ha]
      exact ⟨h, by simp⟩

/-- Every router operation preserves the stored-route invariant and emits
only allowed routes. -/
theorem routerApply_preserves (s : RouterState) (op : ROp) (h : RouterInv s) :
    RouterInv (routerApply s op).1 ∧
    (∀ r ∈ (routerApply s op).2, isAllowedRoute r.path = true) := by
  cases op with
  | init d l =>
    constructor
    · have hc := routerApply_init_currentRoute s d l
      unfold RouterInv at h ⊢
      rw [hc]
      exact h
    · intro r hr
      unfold routerApply at hr
      cases hi : s.isInitialized
      · rw [hi] at hr
        simp at hr
      · rw [hi] at hr
        simp only [if_true] at hr
        cases l with
        | none => simp at hr
        | some n =>
          dsimp only at hr
          have hcur := replayList_mem _ r hr
          rw [applyDefaultRoute_currentRoute] at hcur
          rcases h with hnone | ⟨r0, hr0, hall⟩
          · rw [hnone] at hcur
            exact absurd hcur (by simp)
          · rw [hr0] at hcur
            simp only [Option.some.injEq] at hcur
            rw [← hcur]
            exact hall
  | nav p => exact ⟨h, by intro r hr; simp [routerApply] at hr⟩
  | hashChange hh => exact ⟨h, by intro r hr; simp [routerApply] at hr⟩
  | resolve =>
    show RouterInv (if s.pendingResolve = true then resolveStep s else (s, [])).1 ∧
        (∀ r ∈ (if s.pendingResolve = true then resolveStep s else (s, [])).2,
          isAllowedRoute r.path = true)
    by_cases hp : s.pendingResolve = true
    · rw [if_pos hp]
      exact resolveStep_preserves s h
    · rw [if_neg hp]
      exact ⟨h, by intro r hr; simp at hr⟩
  | sub n => exact ⟨h, by intro r hr; simp [routerApply] at hr⟩
  | unsub n => exact ⟨h, by intro r hr; simp [routerApply] at hr⟩

/-- **C2** — in every reachable router state the stored `currentRoute` is
either `null` (no resolution yet) or an allowed route (its path equals a
whitelist entry or extends one with `"/"`, which is what `isAllowedRoute`
checks); and no operation from such a state ever emits a non-allowed
route to listeners. -/
theorem c2_current_route_allowed (s : RouterState) (hs : ReachableR s) :
    RouterInv s ∧
    (∀ op r, r ∈ (routerApply s op).2 → isAllowedRoute r.path = true) := by
  have hinv : RouterInv s := by
    induction hs with
    | base hash => exact Or.inl rfl
    | step op hprev ih => exact (routerApply_preserves _ op ih).1
  exact ⟨hinv, fun op r hr => (routerApply_preserves s op hinv).2 r hr⟩

/-- **C2 witness** — the application's settled start-up state is reachable
and satisfies the invariant; its stored route is the allowed `/home`. -/
theorem c2_current_route_allowed_witness :
    RouterInv appReadyState ∧
    appReadyState.currentRoute =
      some { path := "/home", segments := ["home"], params := [] } := by
  constructor
  · exact (c2_current_route_allowed appReadyState
      (ReachableR.step .resolve (ReachableR.step .resolve
        (ReachableR.step (.init (some "/home") none) (ReachableR.base ""))))).1
  · decide

/-- A fragment `'#' + q` for a normalization-stable `q` has no query part,
so `parseParams` yields the empty mapping. -/
theorem parseParams_hash_of_fixed (q : String) (hq : normalizePath q = q) :
    parseParams ("#" ++ q) = some [] := by
  have hqdata : normalizeList q.data = q.data := by
    have := congrArg String.data hq
    simpa [normalizePath] using this
  have hnoq : ∀ c ∈ q.data, c ≠ '?' := by
    have := (normalizeList_shape q.data).2.2.1
    rwa [hqdata] at this
  unfold parseParams
  have hdata : ("#" ++ q).data = '#' :: q.data := by simp
  rw [hdata]
  rw [if_neg (by simp)]
  have hnin : ¬ ('?' ∈ ('#' :: q.data)) := by
    intro hin
    rcases List.mem_cons.mp hin with h1 | h2
    · exact absurd h1 (by decide)
    · exact hnoq '?' h2 rfl
  rw [if_neg hnin]

/-- `handleRouteChange` parses the fragment written by `navigate(q)` for a
normalization-stable `q` back to the route for `q` itself. -/
theorem buildRouteFrom_hash_fixed (q : String) (hq : normalizePath q = q) :
    buildRouteFrom ("#" ++ q) =
      some { path := q, segments := toSegments q, params := [] } := by
  unfold buildRouteFrom
  rw [parseParams_hash_of_fixed q hq, normalizePath_hash_fix q hq]

/-- **C4** — navigating to a disallowed (or empty, since `""` normalizes
to the never-allowed `"/"`) target: the resolution triggered by `navigate`
does not emit the invalid route but redirects to the stored default route,
and the redirect's own resolution settles (no further timer is armed) on
`currentRoute.path` equal to the configured default — the redirect
terminates precisely because the default route is allowed (`hallow`).
The default is assumed normalization-stable, as `initRouter` stores it
normalized; `hstable` likewise excludes targets whose normalization is not
itself stable (an artifact of whitespace interacting with query
stripping, which browsers in any case percent-encode away). -/
theorem c4_redirect_to_default (s : RouterState) (p : String)
    (hallow : isAllowedRoute s.defaultRoute = true)
    (hfix : normalizePath s.defaultRoute = s.defaultRoute)
    (hbad : isAllowedRoute (normalizePath p) = false)
    (hstable : normalizePath (normalizePath p) = normalizePath p) :
    (routerApply (routerApply s (.nav p)).1 .resolve).2 = [] ∧
    ((routerApply (routerApply (routerApply s (.nav p)).1 .resolve).1 .resolve).1).currentRoute =
      some { path := s.defaultRoute, segments := toSegments s.defaultRoute, params := [] } ∧
    ((routerApply (routerApply (routerApply s (.nav p)).1 .resolve).1 .resolve).1).pendingResolve
      = false ∧
    (routerApply (routerApply (routerApply s (.nav p)).1 .resolve).1 .resolve).2 =
      [{ path := s.defaultRoute, segments := toSegments s.defaultRoute, params := [] }] := by
  have e1 : (routerApply s (.nav p)).1 = navigateStep s p := rfl
  rw [e1]
  set s1 := navigateStep s p with hs1
  have hs1pending : s1.pendingResolve = true := rfl
  have hs1hash : s1.hash = "#" ++ normalizePath p := rfl
  have hs1default : s1.defaultRoute = s.defaultRoute := rfl
  have e2 : routerApply s1 .resolve = resolveStep s1 := by
    show (if s1.pendingResolve = true then resolveStep s1 else (s1, [])) = resolveStep s1
    rw [hs1pending]
    simp
  rw [e2]
  have hbuild1 : buildRouteFrom s1.hash =
      some { path := normalizePath p, segments := toSegments (normalizePath p), params := [] } := by
    rw [hs1hash]
    exact buildRouteFrom_hash_fixed (normalizePath p) hstable
  have e3 : resolveStep s1 = (navigateStep { s1 with pendingResolve := false } s1.defaultRoute, []) := by
    unfold resolveStep
    rw [hbuild1]
    dsimp only
    rw [if_neg (by rw [hbad]; simp)]
  rw [e3]
  refine ⟨rfl, ?_⟩
  set s2 := navigateStep { s1 with pendingResolve := false } s1.defaultRoute with hs2
  have hs2pending : s2.pendingResolve = true := rfl
  have hs2hash : s2.hash = "#" ++ s.defaultRoute := by
    show "#" ++ normalizePath s1.defaultRoute = "#" ++ s.defaultRoute
    rw [hs1default, hfix]
  have e4 : routerApply s2 .resolve = resolveStep s2 := by
    show (if s2.pendingResolve = true then resolveStep s2 else (s2, [])) = resolveStep s2
    rw [hs2pending]
    simp
  rw [e4]
  have hbuild2 : buildRouteFrom s2.hash =
      some { path := s.defaultRoute, segments := toSegments s.defaultRoute, params := [] } := by
    rw [hs2hash]
    exact buildRouteFrom_hash_fixed s.defaultRoute hfix
  have e5 : resolveStep s2 =
      ({ { s2 with pendingResolve := false } with
          currentRoute :=
            some { path := s.defaultRoute, segments := toSegments s.defaultRoute, params := [] } },
        [{ path := s.defaultRoute, segments := toSegments s.defaultRoute, params := [] }]) := by
    unfold resolveStep
    rw [hbuild2]
    dsimp only
    rw [if_pos (by rw [hallow])]
  rw [e5]
  exact ⟨rfl, rfl, rfl⟩

/-- **C4 witness** — the application's initialized router (default
`/home`) and the empty target: `navigate("")` settles on `/home`. -/
theorem c4_redirect_to_default_witness :
    ((routerApply (routerApply (routerApply
        (routerApply (mkInitial "") (.init (some "/home") none)).1
        (.nav "")).1 .resolve).1 .resolve).1).currentRoute =
      some { path := "/home", segments := ["home"], params := [] } := by
  have h := c4_redirect_to_default (routerApply (mkInitial "") (.init (some "/home") none)).1
    "" (by decide) (by decide) (by decide) (by decide)
  have h2 := h.2.1
  simpa using h2

/-- **C5 witness** — the amended table at concrete routes: `/status/lan`
selects the status renderer, `/application/updates` passes
`sub = "updates"`, and the unmatched `/zzz` selects not-found. -/
theorem c5_prefix_table_amended_witness :
    resolvePage { path := "/status/lan", segments := ["status", "lan"], params := [] } =
      Page.status ∧
    resolvePage { path := "/application/updates", segments := ["application", "updates"],
                  params := [] } = Page.application "updates" ∧
    resolvePage { path := "/zzz", segments := ["zzz"], params := [] } = Page.notFound := by
  refine ⟨?_, ?_, ?_⟩
  · exact (c5_prefix_table_amended "/status/lan" ["status", "lan"] []).2.2.1 "lan"
      (Or.inr rfl)
  · have h := (c5_prefix_table_amended "/application/updates" ["application", "updates"]
      []).2.2.2.2.2.2.2.1 "updates" rfl
    simpa using h
  · exact (c5_prefix_table_amended "/zzz" ["zzz"] []).2.2.2.2.2.2.2.2 (by decide)
      (by decide) (by decide) (by decide) (by decide) (by decide) (by decide) (by decide)
      (by decide) (by decide) (by decide) (by decide)

end Dashboard
